import Mathlib

/-!
Verification development for the documentation cache / doc-manager core of the
cargo-doc-mcp repository.

The TypeScript sources are shallowly embedded as pure Lean functions:
  - src/types.ts: the data types below (DocCacheEntry, SymbolInfo, ...);
  - src/cache.ts: DocCache with get / set (time is passed explicitly as an
    epoch-milliseconds Nat; the persisted JSON file is modelled as a second
    copy of the store, rewritten whole by save);
  - src/doc-manager.ts: checkDoc, buildDoc, searchDoc, listSymbols, with the
    filesystem and the cargo toolchain modelled as explicit environment
    records, and the generated documentation tree as an inductive rose tree
    of named files and directories.

JavaScript specifics that matter are modelled faithfully: object key upsert,
truthiness of options.limit (0 is falsy) and of the empty module path, the
regex matching of documentation filenames (where the regex dot matches any
character except a line terminator), and Array.prototype.sort (modelled as a
merge sort on the comparator relation; localeCompare is modelled as
code-point string order).
-/

namespace CargoDocMcp

/-- SymbolType from src/types.ts: the closed eight-keyword vocabulary.
The constructor macroKind embeds the macro variant. -/
inductive SymbolType where
  | struct
  | enum
  | trait
  | fn
  | const
  | type
  | macroKind
  | mod
deriving DecidableEq, Repr

/-- Filename keyword each SymbolType corresponds to in the filename regex. -/
def kindKeyword : SymbolType → String
  | .struct => "struct"
  | .enum => "enum"
  | .trait => "trait"
  | .fn => "fn"
  | .const => "const"
  | .type => "type"
  | .macroKind => "macro"
  | .mod => "mod"

/-- DocCacheEntry from src/types.ts; lastBuildTime is epoch milliseconds. -/
structure DocCacheEntry where
  crateName : String
  projectPath : String
  docPath : String
  lastBuildTime : Nat
  isBuilt : Bool
deriving DecidableEq, Repr

/-- SymbolInfo from src/types.ts. -/
structure SymbolInfo where
  name : String
  type : SymbolType
  path : String
  url : String
deriving DecidableEq, Repr

/-- SearchResult as constructed in DocManager.searchDoc (only title and url
are populated there). -/
structure SearchResult where
  title : String
  url : String
deriving DecidableEq, Repr

/-- DocErrorCode from src/types.ts. -/
inductive DocErrorCode where
  | INVALID_PATH
  | BUILD_FAILED
  | SEARCH_FAILED
  | CACHE_ERROR
  | CARGO_ERROR
deriving DecidableEq, Repr

/-- RustdocUrl.create from src/url-utils.ts. -/
def rustdocUrl (docPath : String) : String := "rustdoc://" ++ docPath

/-- POSIX path.join restricted to plain segments (no normalisation is needed
by any claim). -/
def pathJoin (a b : String) : String := a ++ "/" ++ b

/-- Simplified POSIX path.dirname: everything before the last separator. -/
def dirname (p : String) : String :=
  let parts := p.splitOn "/"
  if parts.length ≤ 1 then "." else String.intercalate "/" parts.dropLast

/-- Model of path.basename(fileName, ".html"): strips a trailing ".html"
(the filenames handled here never contain a separator). -/
def basenameHtml (fileName : String) : String :=
  if fileName.endsWith ".html" then ⟨fileName.data.take (fileName.data.length - 5)⟩
  else fileName

/-! ### Cache (src/cache.ts)

The in-memory CacheStorage object is modelled as an association list with
unique keys (JS object semantics: upsert in place, append for new keys).
The persisted JSON file is modelled as a second CacheStorage; save copies
the in-memory store over it (whole-file overwrite).  Date.now() becomes an
explicit now argument; the model treats file writes as infallible. -/

/-- CacheStorage from src/types.ts. -/
abbrev CacheStorage := List (String × DocCacheEntry)

/-- DocCache.getCacheKey. -/
def cacheKey (projectPath crateName : String) : String :=
  projectPath ++ ":" ++ crateName

/-- Reading this.cache[key]. -/
def storageLookup : CacheStorage → String → Option DocCacheEntry
  | [], _ => none
  | p :: t, k => if p.1 = k then some p.2 else storageLookup t k

/-- Assignment this.cache[key] = v (JS object upsert: an existing key is
overwritten in place, a new key is appended). -/
def storageSet : CacheStorage → String → DocCacheEntry → CacheStorage
  | [], k, v => [(k, v)]
  | p :: t, k, v => if p.1 = k then (k, v) :: t else p :: storageSet t k v

/-- Deletion of this.cache[key]. -/
def storageDelete : CacheStorage → String → CacheStorage
  | [], _ => []
  | p :: t, k => if p.1 = k then storageDelete t k else p :: storageDelete t k

/-- State of a DocCache instance: the in-memory store and the persisted
store file (docs-rs-mcp-cache.json in the temp directory). -/
structure DocCache where
  mem : CacheStorage
  file : CacheStorage
deriving DecidableEq, Repr

/-- CACHE_TTL = 24 * 60 * 60 * 1000. -/
def cacheTTL : Nat := 24 * 60 * 60 * 1000

/-- DocCache.save: whole-store overwrite of the cache file. -/
def DocCache.save (s : DocCache) : DocCache := { s with file := s.mem }

/-- DocCache.get: lookup by composite key; an expired entry
(now - lastBuildTime > TTL) is deleted, the store persisted, and none
returned.  Returns the result together with the updated cache state. -/
def DocCache.get (s : DocCache) (projectPath crateName : String) (now : Nat) :
    Option DocCacheEntry × DocCache :=
  match storageLookup s.mem (cacheKey projectPath crateName) with
  | none => (none, s)
  | some e =>
    if now - e.lastBuildTime > cacheTTL then
      (none, DocCache.save
        { s with mem := storageDelete s.mem (cacheKey projectPath crateName) })
    else
      (some e, s)

/-- DocCache.set: upsert by composite key, stamping lastBuildTime = now,
then persist. -/
def DocCache.set (s : DocCache) (e : DocCacheEntry) (now : Nat) : DocCache :=
  DocCache.save
    { s with
      mem := storageSet s.mem (cacheKey e.projectPath e.crateName)
        { e with lastBuildTime := now } }

/-! ### Symbol parsing (DocManager.parseSymbolFromFile)

The regex anchored at both ends matches
kind-keyword, a literal dot, a nonempty name whose characters are all
matched by the regex dot (any character except a line terminator), and a
literal ".html" suffix.  No keyword is a prefix of another, so the ordered
alternation picks the unique keyword that fits. -/

/-- Characters matched by an unescaped regex dot in JS (no s flag): any
character except the four line terminators. -/
def regexDotMatches (c : Char) : Bool :=
  c ≠ '\n' && c ≠ '\r' && c ≠ '\u2028' && c ≠ '\u2029'

/-- Alternation order of the eight kind keywords in the regex. -/
def kindList : List SymbolType :=
  [.struct, .enum, .trait, .fn, .const, .type, .macroKind, .mod]

/-- Strips a concrete expected pattern from the front of a character list. -/
def stripPrefixChars : List Char → List Char → Option (List Char)
  | [], cs => some cs
  | _ :: _, [] => none
  | p :: ps, c :: cs => if c = p then stripPrefixChars ps cs else none

/-- Matches the leading kind-keyword-plus-dot of the regex, returning the
kind and the remaining characters. -/
def splitKind (cs : List Char) : Option (SymbolType × List Char) :=
  kindList.findSome? fun t =>
    (stripPrefixChars ((kindKeyword t).data ++ ['.']) cs).map fun rest => (t, rest)

/-- Matches the greedy nonempty dot-matched group followed by the literal
".html" suffix at the end of the filename. -/
def stripHtmlSuffix (cs : List Char) : Option (List Char) :=
  if cs.length < 6 then none
  else if cs.drop (cs.length - 5) = ".html".data then
    if (cs.take (cs.length - 5)).all regexDotMatches then some (cs.take (cs.length - 5))
    else none
  else none

/-- Model of name.replace with a global hyphen pattern and "::" replacement. -/
def hyphensToSepCs : List Char → List Char
  | [] => []
  | c :: cs => if c = '-' then ':' :: ':' :: hyphensToSepCs cs else c :: hyphensToSepCs cs

/-- DocManager.parseSymbolFromFile (src/doc-manager.ts:224-242). -/
def parseSymbolFromFile (fileName modulePath crateName filePath : String) :
    Option SymbolInfo :=
  match splitKind fileName.data with
  | none => none
  | some (t, rest) =>
    match stripHtmlSuffix rest with
    | none => none
    | some nameCs =>
      let symbolName : String := ⟨hyphensToSepCs nameCs⟩
      let fullPath :=
        if modulePath = "" then crateName ++ "::" ++ symbolName
        else crateName ++ "::" ++ modulePath ++ "::" ++ symbolName
      some ⟨symbolName, t, fullPath, rustdocUrl filePath⟩

/-! ### Documentation tree and traversal (DocManager.traverseDirectory) -/

/-- A filesystem entry of the generated documentation tree, as reported by
fs.readdir with file types; list order is directory-entry order. -/
inductive FsEntry where
  | file (name : String) (content : String)
  | dir (name : String) (entries : List FsEntry)
deriving Repr

/-- A documentation file as handed to a traversal file handler: the entry
name, the joined absolute path, the module path at that nesting level, and
the file content (what fs.readFile would return). -/
structure DocFile where
  fileName : String
  filePath : String
  modulePath : String
  content : String
deriving DecidableEq, Repr

/-- DocManager.traverseDirectory (src/doc-manager.ts:254-284): DFS in
directory-entry order; directories named src or implementors are skipped at
every nesting level; the handler sees every file ending in ".html" other
than "index.html".  The resulting list records the handler invocations in
order. -/
def traverseDirectory : List FsEntry → String → String → List DocFile
  | [], _, _ => []
  | .dir name sub :: rest, docDir, modulePath =>
    (if name = "src" ∨ name = "implementors" then []
     else
       traverseDirectory sub (pathJoin docDir name)
         (if modulePath = "" then name else modulePath ++ "::" ++ name))
      ++ traverseDirectory rest docDir modulePath
  | .file name content :: rest, docDir, modulePath =>
    (if name.endsWith ".html" ∧ name ≠ "index.html"
     then [⟨name, pathJoin docDir name, modulePath, content⟩] else [])
      ++ traverseDirectory rest docDir modulePath
termination_by entries _ _ => sizeOf entries

/-- Removes every directory bearing one of the two reserved skip-names, at
every nesting level, keeping everything else. -/
def pruneReserved : List FsEntry → List FsEntry
  | [] => []
  | .dir name sub :: rest =>
    if name = "src" ∨ name = "implementors" then pruneReserved rest
    else .dir name (pruneReserved sub) :: pruneReserved rest
  | .file name content :: rest => .file name content :: pruneReserved rest
termination_by entries => sizeOf entries

/-- Checks that a tree contains no directory with a reserved skip-name at
any nesting level. -/
def noReservedDirs : List FsEntry → Bool
  | [] => true
  | .dir name sub :: rest =>
    if name = "src" ∨ name = "implementors" then false
    else noReservedDirs sub && noReservedDirs rest
  | .file _ _ :: rest => noReservedDirs rest
termination_by entries => sizeOf entries

/-! ### Search and listing cores -/

/-- Checks whether the pattern occurs at the very front of the text. -/
def matchesAt : List Char → List Char → Bool
  | [], _ => true
  | _ :: _, [] => false
  | p :: ps, c :: cs => p = c && matchesAt ps cs

/-- Model of String.prototype.includes: substring occurrence test. -/
def containsSub (pat : List Char) : List Char → Bool
  | [] => matchesAt pat []
  | c :: cs => matchesAt pat (c :: cs) || containsSub pat cs

/-- Model of JS toLowerCase: character-wise lowercasing of the string. -/
def jsToLower (s : String) : String := ⟨s.data.map Char.toLower⟩

/-- The case-insensitive substring test applied to a file by searchDoc:
content.toLowerCase().includes(query.toLowerCase()). -/
def fileMatches (query : String) (f : DocFile) : Bool :=
  containsSub (jsToLower query).data (jsToLower f.content).data

/-- Truthiness-based limit test options.limit && results.length >= limit:
a limit of 0 is falsy and disables the check. -/
def limitActive : Option Nat → Nat → Bool
  | none, _ => false
  | some l, n => decide (l ≠ 0) && decide (n ≥ l)

/-- Title of a search result: the parsed symbol fully-qualified path when
the filename matches the symbol pattern, otherwise the bare filename with
the ".html" extension stripped. -/
def searchTitle (crateName : String) (f : DocFile) : String :=
  match parseSymbolFromFile f.fileName f.modulePath crateName f.filePath with
  | some sym => sym.path
  | none => basenameHtml f.fileName

/-- The search handler loop over the traversal output: skip once the limit
is reached, otherwise record a result for every content match. -/
def searchLoop (query crateName : String) (limit : Option Nat) :
    List DocFile → List SearchResult → List SearchResult
  | [], results => results
  | f :: fs, results =>
    searchLoop query crateName limit fs
      (if limitActive limit results.length then results
       else if fileMatches query f then
         results ++ [⟨searchTitle crateName f, rustdocUrl f.filePath⟩]
       else results)

/-- Comparator relation of the search result sort (localeCompare on titles,
modelled as code-point order). -/
def resultLE (a b : SearchResult) : Bool := decide (a.title ≤ b.title)

/-- Comparator relation of the symbol sort (localeCompare on paths,
modelled as code-point order). -/
def symbolLE (a b : SymbolInfo) : Bool := decide (a.path ≤ b.path)

/-- Collection and final sort of searchDoc over the traversal output. -/
def searchCore (query crateName : String) (limit : Option Nat)
    (files : List DocFile) : List SearchResult :=
  (searchLoop query crateName limit files []).mergeSort resultLE

/-- The listSymbols handler: collect the parse result of every visited
file, in traversal order. -/
def collectSymbols (crateName : String) (files : List DocFile) : List SymbolInfo :=
  files.filterMap fun f =>
    parseSymbolFromFile f.fileName f.modulePath crateName f.filePath

/-- Collection and final sort of listSymbols over the traversal output. -/
def listSymbolsCore (crateName : String) (files : List DocFile) : List SymbolInfo :=
  (collectSymbols crateName files).mergeSort symbolLE

/-! ### Build/status coordinator (DocManager) -/

/-- Environment seen by checkDoc: the project manifest check
(fs.access on projectPath/Cargo.toml), the cargo metadata invocation
(ok targetDirectory on success, error on non-zero exit or unparsable
stdout), and fs.access on arbitrary paths. -/
structure CheckEnv where
  cargoTomlExists : Bool
  metadata : Except Unit String
  fileExists : String → Bool

/-- Result of checkDoc: outcome, updated cache state, and the number of
cargo metadata subprocess invocations performed during the call. -/
structure CheckOutcome where
  result : Except DocErrorCode Bool
  cache : DocCache
  metadataCalls : Nat

/-- The expected documentation entry point
targetDir/doc/crateName/index.html. -/
def expectedDocPath (targetDir crateName : String) : String :=
  pathJoin (pathJoin (pathJoin targetDir "doc") crateName) "index.html"

/-- DocManager.checkDoc (src/doc-manager.ts:76-115).  A cache hit returns
the cached flag with no toolchain call; a miss resolves the target
directory (CARGO_ERROR on failure, re-wrapped by the outer handler with the
same code), probes the entry point, writes a fresh entry either way and
returns the existence boolean. -/
def checkDoc (env : CheckEnv) (s : DocCache) (projectPath crateName : String)
    (now : Nat) : CheckOutcome :=
  if !env.cargoTomlExists then ⟨.error .INVALID_PATH, s, 0⟩
  else
    match DocCache.get s projectPath crateName now with
    | (some e, s1) => ⟨.ok e.isBuilt, s1, 0⟩
    | (none, s1) =>
      match env.metadata with
      | .error _ => ⟨.error .CARGO_ERROR, s1, 1⟩
      | .ok targetDir =>
        let docPath := expectedDocPath targetDir crateName
        if env.fileExists docPath then
          ⟨.ok true, DocCache.set s1 ⟨crateName, projectPath, docPath, now, true⟩ now, 1⟩
        else
          ⟨.ok false, DocCache.set s1 ⟨crateName, projectPath, docPath, now, false⟩ now, 1⟩

/-- Environment seen by buildDoc: the manifest check, the cargo doc
invocation (ok on exit code 0, error stderr otherwise), and the metadata
query used to re-resolve the output root afterwards. -/
structure BuildEnv where
  cargoTomlExists : Bool
  docBuild : Except String Unit
  metadata : Except Unit String

/-- DocManager.buildDoc (src/doc-manager.ts:120-157).  Note the single
try/catch spanning both the build and the subsequent metadata
re-resolution: any error thrown by getTargetDir inside the block, although
carrying CARGO_ERROR itself, is caught by the same handler and re-wrapped
with code BUILD_FAILED. -/
def buildDoc (env : BuildEnv) (s : DocCache) (projectPath crateName : String)
    (noDeps : Bool) (now : Nat) : Except DocErrorCode String × DocCache :=
  if !env.cargoTomlExists then (.error .INVALID_PATH, s)
  else
    match env.docBuild with
    | .error _ => (.error .BUILD_FAILED, s)
    | .ok _ =>
      match env.metadata with
      | .error _ => (.error .BUILD_FAILED, s)
      | .ok targetDir =>
        let docPath := expectedDocPath targetDir crateName
        (.ok docPath, DocCache.set s ⟨crateName, projectPath, docPath, now, true⟩ now)

/-- DocManager.searchDoc (src/doc-manager.ts:162-216): status check,
defensive cache re-read, then traversal of the directory containing the
cached docPath with the search handler, and the final sort by title.  The
tree argument holds the contents of that directory. -/
def searchDocM (env : CheckEnv) (s : DocCache) (tree : List FsEntry)
    (projectPath crateName query : String) (limit : Option Nat) (now : Nat) :
    Except DocErrorCode (List SearchResult) × DocCache :=
  match (checkDoc env s projectPath crateName now).result with
  | .error e => (.error e, (checkDoc env s projectPath crateName now).cache)
  | .ok false =>
    (.error .SEARCH_FAILED, (checkDoc env s projectPath crateName now).cache)
  | .ok true =>
    match DocCache.get (checkDoc env s projectPath crateName now).cache
        projectPath crateName now with
    | (none, s1) => (.error .CACHE_ERROR, s1)
    | (some e, s1) =>
      (.ok (searchCore query crateName limit
          (traverseDirectory tree (dirname e.docPath) "")), s1)

/-- DocManager.listSymbols (src/doc-manager.ts:289-330): status check,
defensive cache re-read, traversal with the symbol-collecting handler, and
the mandatory final sort by fully-qualified path. -/
def listSymbolsM (env : CheckEnv) (s : DocCache) (tree : List FsEntry)
    (projectPath crateName : String) (now : Nat) :
    Except DocErrorCode (List SymbolInfo) × DocCache :=
  match (checkDoc env s projectPath crateName now).result with
  | .error e => (.error e, (checkDoc env s projectPath crateName now).cache)
  | .ok false =>
    (.error .SEARCH_FAILED, (checkDoc env s projectPath crateName now).cache)
  | .ok true =>
    match DocCache.get (checkDoc env s projectPath crateName now).cache
        projectPath crateName now with
    | (none, s1) => (.error .CACHE_ERROR, s1)
    | (some e, s1) =>
      (.ok (listSymbolsCore crateName
          (traverseDirectory tree (dirname e.docPath) "")), s1)

/-! ## Theorems -/

/-! ### Storage helper lemmas -/

theorem storageLookup_set_self (c : CacheStorage) (k : String) (v : DocCacheEntry) :
    storageLookup (storageSet c k v) k = some v := by
  induction c with
  | nil => simp [storageSet, storageLookup]
  | cons p t ih =>
    by_cases hp : p.1 = k
    · simp [storageSet, storageLookup, hp]
    · simp [storageSet, storageLookup, hp, ih]

theorem storageLookup_delete_self (c : CacheStorage) (k : String) :
    storageLookup (storageDelete c k) k = none := by
  induction c with
  | nil => simp [storageDelete, storageLookup]
  | cons p t ih =>
    by_cases hp : p.1 = k
    · simpa [storageDelete, hp] using ih
    · simp [storageDelete, storageLookup, hp, ih]

theorem docCache_set_mem_lookup (s : DocCache) (e : DocCacheEntry) (t : Nat) :
    storageLookup (DocCache.set s e t).mem (cacheKey e.projectPath e.crateName) =
      some { e with lastBuildTime := t } := by
  simp [DocCache.set, DocCache.save, storageLookup_set_self]

/-- C3: Cache round-trip — for every entry e, set(e) immediately followed by
get(e.projectPath, e.packageName) returns an entry equal to e in every field
except lastBuildTime, which equals the time of the set call (set always
stamps lastBuildTime = now when writing). -/
theorem cache_set_get_roundtrip (s : DocCache) (e : DocCacheEntry) (t : Nat) :
    (DocCache.get (DocCache.set s e t) e.projectPath e.crateName t).1 =
      some { e with lastBuildTime := t } := by
  unfold DocCache.get
  simp [docCache_set_mem_lookup]

/-- C4: Cache expiry — for every stored entry with
now - lastBuildTime > TTL, get on that key returns absent and afterwards the
entry is present neither in the in-memory store nor in the persisted store
file. -/
theorem cache_get_expired (s : DocCache) (pp cn : String) (now : Nat)
    (e : DocCacheEntry)
    (hfound : storageLookup s.mem (cacheKey pp cn) = some e)
    (hexp : now - e.lastBuildTime > cacheTTL) :
    (DocCache.get s pp cn now).1 = none ∧
      storageLookup (DocCache.get s pp cn now).2.mem (cacheKey pp cn) = none ∧
      storageLookup (DocCache.get s pp cn now).2.file (cacheKey pp cn) = none := by
  unfold DocCache.get
  simp only [hfound]
  rw [if_pos hexp]
  exact ⟨rfl, by simp [DocCache.save, storageLookup_delete_self],
    by simp [DocCache.save, storageLookup_delete_self]⟩

/-- Witness for C4 at a concrete expired entry. -/
theorem cache_get_expired_witness :
    (DocCache.get ⟨[("p:c", ⟨"c", "p", "/t/doc/c/index.html", 0, true⟩)],
        [("p:c", ⟨"c", "p", "/t/doc/c/index.html", 0, true⟩)]⟩
        "p" "c" 86400001).1 = none ∧
      storageLookup (DocCache.get ⟨[("p:c", ⟨"c", "p", "/t/doc/c/index.html", 0, true⟩)],
        [("p:c", ⟨"c", "p", "/t/doc/c/index.html", 0, true⟩)]⟩
        "p" "c" 86400001).2.mem (cacheKey "p" "c") = none ∧
      storageLookup (DocCache.get ⟨[("p:c", ⟨"c", "p", "/t/doc/c/index.html", 0, true⟩)],
        [("p:c", ⟨"c", "p", "/t/doc/c/index.html", 0, true⟩)]⟩
        "p" "c" 86400001).2.file (cacheKey "p" "c") = none :=
  cache_get_expired _ "p" "c" 86400001 ⟨"c", "p", "/t/doc/c/index.html", 0, true⟩
    (by decide) (by decide)

theorem docCache_get_some (s : DocCache) (pp cn : String) (now : Nat)
    (e : DocCacheEntry) (h : (DocCache.get s pp cn now).1 = some e) :
    DocCache.get s pp cn now = (some e, s) := by
  unfold DocCache.get at h ⊢
  split at h
  · simp at h
  · rename_i e2 heq
    split at h
    · simp at h
    · rename_i hexp
      simp only [Prod.fst] at h
      cases h
      simp [heq, hexp]

/-- C1: checkStatus semantics — on a cache hit with an unexpired entry the
cached isBuilt flag is returned with no toolchain invocation, no filesystem
probe (the outcome is the same for every environment with the manifest
present) and no cache change; on a cache miss the output root is resolved,
the expected entry point outputRoot/doc/packageName/index.html is computed,
its existence probed, a fresh entry holding the computed docPath (even when
isBuilt is false) is written, and the existence boolean is returned. -/
theorem checkDoc_cache_semantics :
    (∀ (env env2 : CheckEnv) (s : DocCache) (pp cn : String) (now : Nat)
        (e : DocCacheEntry),
      env.cargoTomlExists = true → env2.cargoTomlExists = true →
      (DocCache.get s pp cn now).1 = some e →
      checkDoc env s pp cn now = ⟨.ok e.isBuilt, s, 0⟩ ∧
        checkDoc env2 s pp cn now = checkDoc env s pp cn now) ∧
    (∀ (env : CheckEnv) (s : DocCache) (pp cn : String) (now : Nat)
        (td : String),
      env.cargoTomlExists = true →
      (DocCache.get s pp cn now).1 = none →
      env.metadata = .ok td →
      checkDoc env s pp cn now =
        ⟨.ok (env.fileExists (expectedDocPath td cn)),
         DocCache.set (DocCache.get s pp cn now).2
           ⟨cn, pp, expectedDocPath td cn, now,
            env.fileExists (expectedDocPath td cn)⟩ now,
         1⟩) := by
  constructor
  · intro env env2 s pp cn now e he he2 hget
    have hs := docCache_get_some s pp cn now e hget
    constructor
    · simp [checkDoc, he, hs]
    · simp [checkDoc, he, he2, hs]
  · intro env s pp cn now td he hget hmeta
    have hs : DocCache.get s pp cn now = (none, (DocCache.get s pp cn now).2) := by
      rw [← hget]
    rw [checkDoc, he]
    simp only [Bool.not_true, Bool.false_eq_true, if_false]
    rw [hs, hmeta]
    cases hf : env.fileExists (expectedDocPath td cn) <;> simp [hf]

/-- Witness for C1: a hit on an unexpired entry (isBuilt true, no toolchain
call, cache untouched, outcome environment-independent) and a miss on an
empty cache with target directory /t (isBuilt false, fresh entry written
with the computed docPath). -/
theorem checkDoc_cache_semantics_witness :
    (checkDoc ⟨true, .ok "/t", fun _ => false⟩
        ⟨[("p:c", ⟨"c", "p", "/t/doc/c/index.html", 5, true⟩)], []⟩ "p" "c" 6 =
      ⟨.ok true, ⟨[("p:c", ⟨"c", "p", "/t/doc/c/index.html", 5, true⟩)], []⟩, 0⟩) ∧
    (checkDoc ⟨true, .error (), fun _ => true⟩
        ⟨[("p:c", ⟨"c", "p", "/t/doc/c/index.html", 5, true⟩)], []⟩ "p" "c" 6 =
      checkDoc ⟨true, .ok "/t", fun _ => false⟩
        ⟨[("p:c", ⟨"c", "p", "/t/doc/c/index.html", 5, true⟩)], []⟩ "p" "c" 6) ∧
    (checkDoc ⟨true, .ok "/t", fun _ => false⟩ ⟨[], []⟩ "p" "c" 7 =
      ⟨.ok false,
       DocCache.set (DocCache.get ⟨[], []⟩ "p" "c" 7).2
         ⟨"c", "p", expectedDocPath "/t" "c", 7, false⟩ 7, 1⟩) := by
  refine ⟨?_, ?_, ?_⟩
  · exact (checkDoc_cache_semantics.1 ⟨true, .ok "/t", fun _ => false⟩
      ⟨true, .error (), fun _ => true⟩ _ "p" "c" 6
      ⟨"c", "p", "/t/doc/c/index.html", 5, true⟩ rfl rfl (by decide)).1
  · exact (checkDoc_cache_semantics.1 ⟨true, .ok "/t", fun _ => false⟩
      ⟨true, .error (), fun _ => true⟩ _ "p" "c" 6
      ⟨"c", "p", "/t/doc/c/index.html", 5, true⟩ rfl rfl (by decide)).2
  · exact checkDoc_cache_semantics.2 ⟨true, .ok "/t", fun _ => false⟩
      ⟨[], []⟩ "p" "c" 7 "/t" rfl (by decide) rfl

/-- C2: for every call of listSymbols or search on a pair whose checkStatus
is false, the operation fails with SearchFailed and performs no filesystem
traversal: the outcome is the same, and traversal-free, for every possible
documentation tree. -/
theorem notBuilt_fails_without_traversal (env : CheckEnv) (s : DocCache)
    (pp cn : String) (now : Nat)
    (h : (checkDoc env s pp cn now).result = .ok false) :
    (∀ (tree : List FsEntry) (q : String) (lim : Option Nat),
        searchDocM env s tree pp cn q lim now =
          (.error .SEARCH_FAILED, (checkDoc env s pp cn now).cache)) ∧
    (∀ tree : List FsEntry,
        listSymbolsM env s tree pp cn now =
          (.error .SEARCH_FAILED, (checkDoc env s pp cn now).cache)) := by
  constructor
  · intro tree q lim
    unfold searchDocM
    rw [h]
  · intro tree
    unfold listSymbolsM
    rw [h]

/-- Witness for C2: a project whose entry point is absent (checkStatus
false); search and listing both fail with SEARCH_FAILED on an arbitrary
concrete tree. -/
theorem notBuilt_fails_without_traversal_witness :
    (searchDocM ⟨true, .ok "/t", fun _ => false⟩ ⟨[], []⟩
        [.file "struct.A.html" "hello"] "p" "c" "hello" none 0 =
      (.error .SEARCH_FAILED,
       (checkDoc ⟨true, .ok "/t", fun _ => false⟩ ⟨[], []⟩ "p" "c" 0).cache)) ∧
    (listSymbolsM ⟨true, .ok "/t", fun _ => false⟩ ⟨[], []⟩
        [.file "struct.A.html" "hello"] "p" "c" 0 =
      (.error .SEARCH_FAILED,
       (checkDoc ⟨true, .ok "/t", fun _ => false⟩ ⟨[], []⟩ "p" "c" 0).cache)) := by
  have h := notBuilt_fails_without_traversal ⟨true, .ok "/t", fun _ => false⟩
    ⟨[], []⟩ "p" "c" 0 rfl
  exact ⟨h.1 [.file "struct.A.html" "hello"] "hello" none,
    h.2 [.file "struct.A.html" "hello"]⟩

/-! ### Symbol parsing lemmas -/

theorem stripPrefixChars_eq_some {ps cs rest : List Char}
    (h : stripPrefixChars ps cs = some rest) : cs = ps ++ rest := by
  induction ps generalizing cs with
  | nil =>
    simp only [stripPrefixChars] at h
    cases h
    rfl
  | cons p ps ih =>
    cases cs with
    | nil => simp [stripPrefixChars] at h
    | cons c cs2 =>
      simp only [stripPrefixChars] at h
      by_cases hc : c = p
      · rw [if_pos hc] at h
        simp [hc, ih h]
      · rw [if_neg hc] at h
        simp at h

theorem stripPrefixChars_append (ps rest : List Char) :
    stripPrefixChars ps (ps ++ rest) = some rest := by
  induction ps with
  | nil => rfl
  | cons p ps ih => simp [stripPrefixChars, ih]

theorem splitKind_decomp (t : SymbolType) (rest : List Char) :
    splitKind ((kindKeyword t).data ++ '.' :: rest) = some (t, rest) := by
  have hs : ∀ (kw : List Char) (r : List Char),
      stripPrefixChars (kw ++ ['.']) (kw ++ '.' :: r) = some r := by
    intro kw r
    simpa using stripPrefixChars_append (kw ++ ['.']) r
  cases t <;>
    simp [splitKind, kindList, kindKeyword, List.findSome?, hs, stripPrefixChars,
      show "struct".data = ['s', 't', 'r', 'u', 'c', 't'] from rfl,
      show "enum".data = ['e', 'n', 'u', 'm'] from rfl,
      show "trait".data = ['t', 'r', 'a', 'i', 't'] from rfl,
      show "fn".data = ['f', 'n'] from rfl,
      show "const".data = ['c', 'o', 'n', 's', 't'] from rfl,
      show "type".data = ['t', 'y', 'p', 'e'] from rfl,
      show "macro".data = ['m', 'a', 'c', 'r', 'o'] from rfl,
      show "mod".data = ['m', 'o', 'd'] from rfl]

theorem splitKind_eq_some {cs : List Char} {t : SymbolType} {rest : List Char}
    (h : splitKind cs = some (t, rest)) :
    cs = (kindKeyword t).data ++ '.' :: rest := by
  obtain ⟨t2, ht2, hf⟩ := List.exists_of_findSome?_eq_some h
  cases hs : stripPrefixChars ((kindKeyword t2).data ++ ['.']) cs with
  | none => rw [hs] at hf; simp at hf
  | some r =>
    rw [hs] at hf
    simp only [Option.map_some', Option.some.injEq, Prod.mk.injEq] at hf
    obtain ⟨ht, hr⟩ := hf
    subst ht
    subst hr
    have hc := stripPrefixChars_eq_some hs
    simpa using hc

theorem stripHtmlSuffix_append (name : List Char) (h1 : name ≠ [])
    (h2 : name.all regexDotMatches = true) :
    stripHtmlSuffix (name ++ ".html".data) = some name := by
  have hn : 0 < name.length := List.length_pos.mpr h1
  have hlen : (name ++ ".html".data).length = name.length + 5 := by
    simp [show (".html".data).length = 5 from rfl]
  unfold stripHtmlSuffix
  rw [hlen]
  rw [if_neg (by omega)]
  have h5 : name.length + 5 - 5 = name.length := by omega
  rw [h5, List.drop_left, if_pos rfl, List.take_left, if_pos h2]

theorem stripHtmlSuffix_eq_some {cs nameCs : List Char}
    (h : stripHtmlSuffix cs = some nameCs) :
    cs = nameCs ++ ".html".data ∧ nameCs ≠ [] ∧
      nameCs.all regexDotMatches = true := by
  unfold stripHtmlSuffix at h
  split at h
  · simp at h
  · rename_i h6
    split at h
    · rename_i hdrop
      split at h
      · rename_i hall
        injection h with h
        subst h
        refine ⟨?_, ?_, hall⟩
        · conv_lhs => rw [← List.take_append_drop (cs.length - 5) cs]
          rw [hdrop]
        · have hlt : (cs.take (cs.length - 5)).length = cs.length - 5 := by
            rw [List.length_take, min_eq_left (Nat.sub_le _ _)]
          intro hnil
          rw [hnil] at hlt
          simp at hlt
          omega
      · simp at h
    · simp at h

/-- C5: Symbol parsing — every filename of the form
kind-keyword, dot, nonempty dot-matched name, ".html" parses to a symbol
whose name is the name portion with every hyphen converted to "::" and
whose fully-qualified path is the crate name joined with the module path
(when non-empty) and the name by "::"; the concrete file
struct.Foo-Bar.html under the crate root yields kind struct, name Foo::Bar
and path my-crate::Foo::Bar; and only such filenames ever yield a symbol
(every other filename yields none, with no error). -/
theorem parseSymbol_spec :
    (∀ (t : SymbolType) (fileName : String) (name : List Char)
        (modulePath crateName filePath : String),
      fileName.data = (kindKeyword t).data ++ '.' :: (name ++ ".html".data) →
      name ≠ [] → (∀ c ∈ name, regexDotMatches c = true) →
      parseSymbolFromFile fileName modulePath crateName filePath =
        some ⟨⟨hyphensToSepCs name⟩, t,
          (if modulePath = "" then
            crateName ++ "::" ++ (⟨hyphensToSepCs name⟩ : String)
           else
            crateName ++ "::" ++ modulePath ++ "::" ++
              (⟨hyphensToSepCs name⟩ : String)),
          rustdocUrl filePath⟩) ∧
    (parseSymbolFromFile "struct.Foo-Bar.html" "" "my-crate"
        "/d/struct.Foo-Bar.html" =
      some ⟨"Foo::Bar", .struct, "my-crate::Foo::Bar",
        "rustdoc:///d/struct.Foo-Bar.html"⟩) ∧
    (∀ (fileName modulePath crateName filePath : String) (sym : SymbolInfo),
      parseSymbolFromFile fileName modulePath crateName filePath = some sym →
      ∃ (t : SymbolType) (name : List Char),
        fileName.data = (kindKeyword t).data ++ '.' :: (name ++ ".html".data) ∧
        name ≠ [] ∧ ∀ c ∈ name, regexDotMatches c = true) := by
  refine ⟨?_, ?_, ?_⟩
  · intro t fileName name m cn fp hdata hne hdot
    unfold parseSymbolFromFile
    rw [hdata]
    simp only [splitKind_decomp,
      stripHtmlSuffix_append name hne (List.all_eq_true.mpr hdot)]
  · decide
  · intro f m cn fp sym h
    unfold parseSymbolFromFile at h
    split at h
    · simp at h
    · rename_i t rest hsk
      split at h
      · simp at h
      · rename_i nameCs hsh
        obtain ⟨hrest, hne, hall⟩ := stripHtmlSuffix_eq_some hsh
        exact ⟨t, nameCs, by rw [splitKind_eq_some hsk, hrest], hne,
          List.all_eq_true.mp hall⟩

/-- Witness for C5 at the filename mod.A-B.html inside module m of crate c. -/
theorem parseSymbol_spec_witness :
    parseSymbolFromFile "mod.A-B.html" "m" "c" "/p" =
      some ⟨"A::B", .mod, "c::m::A::B", "rustdoc:///p"⟩ :=
  (parseSymbol_spec.1 .mod "mod.A-B.html" "A-B".data "m" "c" "/p" (by decide)
    (by decide) (by decide)).trans (by decide)

/-! ### Error code propagation of the metadata query -/

/-- C8 counterexample: after a successful cargo doc run, a failing metadata
re-resolution inside buildDoc surfaces as BUILD_FAILED, which is a different
error code than the CARGO_ERROR (ToolchainError) the claim requires. -/
theorem buildDoc_metadata_failure_counterexample :
    (buildDoc ⟨true, .ok (), .error ()⟩ ⟨[], []⟩ "p" "c" false 0).1 =
        Except.error DocErrorCode.BUILD_FAILED ∧
      DocErrorCode.BUILD_FAILED ≠ DocErrorCode.CARGO_ERROR :=
  ⟨rfl, by decide⟩

/-- C8 amended: a metadata-query failure surfaces as CARGO_ERROR
(ToolchainError) from checkStatus and from the search and listing
operations that re-check through it, but buildDoc wraps the failure of its
post-build re-resolution in its catch-all handler and surfaces BUILD_FAILED
instead. -/
theorem metadata_failure_error_codes :
    (∀ (env : CheckEnv) (s : DocCache) (pp cn : String) (now : Nat),
      env.cargoTomlExists = true → (DocCache.get s pp cn now).1 = none →
      env.metadata = .error () →
      checkDoc env s pp cn now =
        ⟨.error .CARGO_ERROR, (DocCache.get s pp cn now).2, 1⟩) ∧
    (∀ (env : CheckEnv) (s : DocCache) (tree : List FsEntry)
        (pp cn q : String) (lim : Option Nat) (now : Nat),
      env.cargoTomlExists = true → (DocCache.get s pp cn now).1 = none →
      env.metadata = .error () →
      (searchDocM env s tree pp cn q lim now).1 = .error .CARGO_ERROR) ∧
    (∀ (env : CheckEnv) (s : DocCache) (tree : List FsEntry)
        (pp cn : String) (now : Nat),
      env.cargoTomlExists = true → (DocCache.get s pp cn now).1 = none →
      env.metadata = .error () →
      (listSymbolsM env s tree pp cn now).1 = .error .CARGO_ERROR) ∧
    (∀ (env : BuildEnv) (s : DocCache) (pp cn : String) (nd : Bool)
        (now : Nat),
      env.cargoTomlExists = true → env.docBuild = .ok () →
      env.metadata = .error () →
      buildDoc env s pp cn nd now = (.error .BUILD_FAILED, s)) := by
  have main1 : ∀ (env : CheckEnv) (s : DocCache) (pp cn : String) (now : Nat),
      env.cargoTomlExists = true → (DocCache.get s pp cn now).1 = none →
      env.metadata = .error () →
      checkDoc env s pp cn now =
        ⟨.error .CARGO_ERROR, (DocCache.get s pp cn now).2, 1⟩ := by
    intro env s pp cn now he hget hmeta
    have hs : DocCache.get s pp cn now = (none, (DocCache.get s pp cn now).2) := by
      rw [← hget]
    rw [checkDoc, he]
    simp only [Bool.not_true, Bool.false_eq_true, if_false]
    rw [hs, hmeta]
  refine ⟨main1, ?_, ?_, ?_⟩
  · intro env s tree pp cn q lim now he hget hmeta
    unfold searchDocM
    rw [main1 env s pp cn now he hget hmeta]
  · intro env s tree pp cn now he hget hmeta
    unfold listSymbolsM
    rw [main1 env s pp cn now he hget hmeta]
  · intro env s pp cn nd now he hdoc hmeta
    rw [buildDoc, he]
    simp only [Bool.not_true, Bool.false_eq_true, if_false]
    rw [hdoc, hmeta]

/-- Witness for the amended C8 at concrete environments. -/
theorem metadata_failure_error_codes_witness :
    (checkDoc ⟨true, .error (), fun _ => false⟩ ⟨[], []⟩ "p" "c" 0 =
        ⟨.error .CARGO_ERROR, (DocCache.get ⟨[], []⟩ "p" "c" 0).2, 1⟩) ∧
    ((searchDocM ⟨true, .error (), fun _ => false⟩ ⟨[], []⟩ [] "p" "c" "q"
        none 0).1 = .error .CARGO_ERROR) ∧
    ((listSymbolsM ⟨true, .error (), fun _ => false⟩ ⟨[], []⟩ [] "p" "c" 0).1 =
        .error .CARGO_ERROR) ∧
    (buildDoc ⟨true, .ok (), .error ()⟩ ⟨[], []⟩ "p" "c" false 0 =
        (.error .BUILD_FAILED, ⟨[], []⟩)) := by
  refine ⟨?_, ?_, ?_, ?_⟩
  · exact metadata_failure_error_codes.1 ⟨true, .error (), fun _ => false⟩
      ⟨[], []⟩ "p" "c" 0 rfl rfl rfl
  · exact metadata_failure_error_codes.2.1 ⟨true, .error (), fun _ => false⟩
      ⟨[], []⟩ [] "p" "c" "q" none 0 rfl rfl rfl
  · exact metadata_failure_error_codes.2.2.1 ⟨true, .error (), fun _ => false⟩
      ⟨[], []⟩ [] "p" "c" 0 rfl rfl rfl
  · exact metadata_failure_error_codes.2.2.2 ⟨true, .ok (), .error ()⟩
      ⟨[], []⟩ "p" "c" false 0 rfl rfl rfl

/-! ### Traversal lemmas -/

theorem traverseDirectory_prune (entries : List FsEntry) :
    ∀ (docDir modulePath : String),
      traverseDirectory (pruneReserved entries) docDir modulePath =
        traverseDirectory entries docDir modulePath := by
  induction entries using pruneReserved.induct with
  | case1 => intro d m; simp [pruneReserved]
  | case2 name sub rest hres ihrest =>
    intro d m
    simp [pruneReserved, traverseDirectory, hres, ihrest]
  | case3 name sub rest hres ihsub ihrest =>
    intro d m
    simp [pruneReserved, traverseDirectory, hres, ihsub, ihrest]
  | case4 name content rest ihrest =>
    intro d m
    simp [pruneReserved, traverseDirectory, ihrest]

theorem noReservedDirs_prune (entries : List FsEntry) :
    noReservedDirs (pruneReserved entries) = true := by
  induction entries using pruneReserved.induct with
  | case1 => simp [pruneReserved, noReservedDirs]
  | case2 name sub rest hres ihrest => simp [pruneReserved, hres, ihrest]
  | case3 name sub rest hres ihsub ihrest =>
    simp [pruneReserved, noReservedDirs, hres, ihsub, ihrest]
  | case4 name content rest ihrest => simp [pruneReserved, noReservedDirs, ihrest]

/-- C6: Directory exclusion — traversal output, and with it everything
listSymbols and search return, is unchanged when every directory named src
or implementors (at any nesting level) is removed from the tree first; the
pruned tree provably contains no such directory, so no file below one is
ever returned as a symbol or matched as a search result. -/
theorem traversal_excludes_reserved :
    (∀ entries : List FsEntry, noReservedDirs (pruneReserved entries) = true) ∧
    (∀ (entries : List FsEntry) (docDir modulePath : String),
      traverseDirectory entries docDir modulePath =
        traverseDirectory (pruneReserved entries) docDir modulePath) ∧
    (∀ (env : CheckEnv) (s : DocCache) (tree : List FsEntry)
        (pp cn q : String) (lim : Option Nat) (now : Nat),
      searchDocM env s tree pp cn q lim now =
        searchDocM env s (pruneReserved tree) pp cn q lim now) ∧
    (∀ (env : CheckEnv) (s : DocCache) (tree : List FsEntry) (pp cn : String)
        (now : Nat),
      listSymbolsM env s tree pp cn now =
        listSymbolsM env s (pruneReserved tree) pp cn now) := by
  refine ⟨noReservedDirs_prune,
    fun entries d m => (traverseDirectory_prune entries d m).symm, ?_, ?_⟩
  · intro env s tree pp cn q lim now
    unfold searchDocM
    simp only [traverseDirectory_prune]
  · intro env s tree pp cn now
    unfold listSymbolsM
    simp only [traverseDirectory_prune]

/-! ### Search semantics lemmas -/

theorem resultLE_trans (a b c : SearchResult) (h1 : resultLE a b = true)
    (h2 : resultLE b c = true) : resultLE a c = true := by
  simp only [resultLE, decide_eq_true_eq] at *
  exact le_trans h1 h2

theorem resultLE_total (a b : SearchResult) :
    (resultLE a b || resultLE b a) = true := by
  simp only [resultLE, Bool.or_eq_true, decide_eq_true_eq]
  exact le_total _ _

theorem symbolLE_trans (a b c : SymbolInfo) (h1 : symbolLE a b = true)
    (h2 : symbolLE b c = true) : symbolLE a c = true := by
  simp only [symbolLE, decide_eq_true_eq] at *
  exact le_trans h1 h2

theorem symbolLE_total (a b : SymbolInfo) :
    (symbolLE a b || symbolLE b a) = true := by
  simp only [symbolLE, Bool.or_eq_true, decide_eq_true_eq]
  exact le_total _ _

theorem searchLoop_mem {q cn : String} {lim : Option Nat} :
    ∀ (files : List DocFile) (acc : List SearchResult) (r : SearchResult),
      r ∈ searchLoop q cn lim files acc →
      r ∈ acc ∨ ∃ f ∈ files, fileMatches q f = true ∧
        r = ⟨searchTitle cn f, rustdocUrl f.filePath⟩ := by
  intro files
  induction files with
  | nil =>
    intro acc r h
    simp only [searchLoop] at h
    exact Or.inl h
  | cons f fs ih =>
    intro acc r h
    simp only [searchLoop] at h
    rcases ih _ r h with hacc | ⟨g, hg, hm, hr⟩
    · by_cases hl : limitActive lim acc.length = true
      · rw [if_pos hl] at hacc
        exact Or.inl hacc
      · rw [if_neg hl] at hacc
        by_cases hm2 : fileMatches q f = true
        · rw [if_pos hm2] at hacc
          rcases List.mem_append.mp hacc with h1 | h1
          · exact Or.inl h1
          · refine Or.inr ⟨f, List.mem_cons_self f fs, hm2, ?_⟩
            simpa using h1
        · rw [if_neg hm2] at hacc
          exact Or.inl hacc
    · exact Or.inr ⟨g, List.mem_cons_of_mem f hg, hm, hr⟩

theorem searchLoop_length_none (q cn : String) :
    ∀ (files : List DocFile) (acc : List SearchResult),
      (searchLoop q cn none files acc).length =
        acc.length + files.countP (fileMatches q) := by
  intro files
  induction files with
  | nil => intro acc; simp [searchLoop]
  | cons f fs ih =>
    intro acc
    have h0 : limitActive none acc.length = false := rfl
    simp only [searchLoop, h0, Bool.false_eq_true, if_false]
    by_cases hm : fileMatches q f = true
    · rw [if_pos hm, ih, List.countP_cons, hm]
      simp only [List.length_append, List.length_singleton, if_pos]
      omega
    · rw [if_neg hm, ih, List.countP_cons]
      simp [hm]

theorem searchLoop_length_some (q cn : String) (l : Nat) (hl : l ≠ 0) :
    ∀ (files : List DocFile) (acc : List SearchResult), acc.length ≤ l →
      (searchLoop q cn (some l) files acc).length =
        min l (acc.length + files.countP (fileMatches q)) := by
  intro files
  induction files with
  | nil =>
    intro acc hacc
    simp only [searchLoop, List.countP_nil, Nat.add_zero]
    rw [min_eq_right hacc]
  | cons f fs ih =>
    intro acc hacc
    simp only [searchLoop]
    by_cases hfull : l ≤ acc.length
    · have heq : acc.length = l := le_antisymm hacc hfull
      have hla : limitActive (some l) acc.length = true := by
        simp [limitActive, hl]
        omega
      rw [if_pos hla, ih acc hacc, List.countP_cons, heq]
      rw [min_eq_left (by omega), min_eq_left (by omega)]
    · have hla : limitActive (some l) acc.length = false := by
        simp [limitActive, hl]
        omega
      rw [if_neg (by simp [hla])]
      by_cases hm : fileMatches q f = true
      · rw [if_pos hm, ih _ (by simp; omega), List.countP_cons, hm]
        simp only [List.length_append, List.length_singleton, if_pos]
        have harith : acc.length + 1 + fs.countP (fileMatches q) =
            acc.length + (fs.countP (fileMatches q) + 1) := by omega
        rw [harith]
      · rw [if_neg hm, ih acc hacc, List.countP_cons]
        simp [hm]

theorem searchCore_length_eq (q cn : String) (lim : Option Nat)
    (files : List DocFile) :
    (searchCore q cn lim files).length =
      (searchLoop q cn lim files []).length := by
  unfold searchCore
  exact (List.mergeSort_perm _ resultLE).length_eq

/-- C7: Search semantics — search results are sorted by title; without a
limit every file whose content passes the case-insensitive substring test
of the query contributes exactly one result; with a non-zero limit l the
number of results is exactly min l (number of matching files), so 10
matching files and limit 3 give exactly 3 results; every result stems from
a matching file and is titled by the parsed symbol fully-qualified path
when the filename matches the symbol pattern and by the bare filename
otherwise; and every successful searchDoc call returns exactly such a
result set over its traversal. -/
theorem searchDoc_semantics :
    (∀ (q cn : String) (lim : Option Nat) (files : List DocFile),
      List.Pairwise (fun a b : SearchResult => a.title ≤ b.title)
        (searchCore q cn lim files)) ∧
    (∀ (q cn : String) (files : List DocFile),
      (searchCore q cn none files).length = files.countP (fileMatches q)) ∧
    (∀ (q cn : String) (l : Nat) (files : List DocFile), l ≠ 0 →
      (searchCore q cn (some l) files).length =
        min l (files.countP (fileMatches q))) ∧
    (∀ (q cn : String) (lim : Option Nat) (files : List DocFile)
        (r : SearchResult), r ∈ searchCore q cn lim files →
      ∃ f ∈ files, fileMatches q f = true ∧
        r = ⟨searchTitle cn f, rustdocUrl f.filePath⟩) ∧
    (∀ (env : CheckEnv) (s : DocCache) (tree : List FsEntry)
        (pp cn q : String) (lim : Option Nat) (now : Nat)
        (res : List SearchResult) (s2 : DocCache),
      searchDocM env s tree pp cn q lim now = (.ok res, s2) →
      ∃ e : DocCacheEntry,
        res = searchCore q cn lim
          (traverseDirectory tree (dirname e.docPath) "")) := by
  refine ⟨?_, ?_, ?_, ?_, ?_⟩
  · intro q cn lim files
    exact (List.sorted_mergeSort resultLE_trans resultLE_total
      (searchLoop q cn lim files [])).imp
      fun hab => by simpa [resultLE] using hab
  · intro q cn files
    rw [searchCore_length_eq, searchLoop_length_none]
    simp
  · intro q cn l files hl
    rw [searchCore_length_eq, searchLoop_length_some q cn l hl files [] (by simp)]
    simp
  · intro q cn lim files r hr
    have hmem : r ∈ searchLoop q cn lim files [] :=
      ((List.mergeSort_perm _ resultLE).mem_iff).mp hr
    rcases searchLoop_mem files [] r hmem with h0 | h1
    · simp at h0
    · exact h1
  · intro env s tree pp cn q lim now res s2 h
    unfold searchDocM at h
    split at h
    · simp at h
    · simp at h
    · split at h
      · simp at h
      · rename_i e s1 heq
        simp only [Prod.mk.injEq] at h
        obtain ⟨hres, _⟩ := h
        injection hres with hres
        exact ⟨e, hres.symm⟩

/-- Witness for C7: ten matching files with limit 3 produce exactly three
results. -/
theorem searchDoc_semantics_witness :
    (searchCore "q" "c" (some 3)
      ((List.range 10).map fun i =>
        ⟨"f" ++ toString i ++ ".html", "/d", "", "q"⟩)).length = 3 :=
  (searchDoc_semantics.2.2.1 "q" "c" 3
    ((List.range 10).map fun i => ⟨"f" ++ toString i ++ ".html", "/d", "", "q"⟩)
    (by decide)).trans (by decide)

/-- C9: listSymbols ordering — every successful listSymbols call returns a
symbol sequence sorted by fullyQualifiedPath. -/
theorem listSymbols_sorted (env : CheckEnv) (s : DocCache)
    (tree : List FsEntry) (pp cn : String) (now : Nat)
    (syms : List SymbolInfo) (s2 : DocCache)
    (h : listSymbolsM env s tree pp cn now = (.ok syms, s2)) :
    List.Pairwise (fun a b : SymbolInfo => a.path ≤ b.path) syms := by
  unfold listSymbolsM at h
  split at h
  · simp at h
  · simp at h
  · split at h
    · simp at h
    · rename_i e s1 heq
      simp only [Prod.mk.injEq] at h
      obtain ⟨hres, _⟩ := h
      injection hres with hres
      rw [← hres]
      exact (List.sorted_mergeSort symbolLE_trans symbolLE_total
        (collectSymbols cn (traverseDirectory tree (dirname e.docPath) ""))).imp
        fun hab => by simpa [symbolLE] using hab

/-- Witness for C9 at a concrete successful listing of two symbols. -/
theorem listSymbols_sorted_witness :
    List.Pairwise (fun a b : SymbolInfo => a.path ≤ b.path)
      (listSymbolsCore "c"
        (traverseDirectory
          [.file "struct.B.html" "x", .file "struct.A.html" "y"]
          (dirname "/t/doc/c/index.html") "")) :=
  listSymbols_sorted ⟨true, .ok "/t", fun _ => true⟩ ⟨[], []⟩
    [.file "struct.B.html" "x", .file "struct.A.html" "y"] "p" "c" 0
    (listSymbolsCore "c"
      (traverseDirectory
        [.file "struct.B.html" "x", .file "struct.A.html" "y"]
        (dirname "/t/doc/c/index.html") ""))
    ⟨[("p:c", ⟨"c", "p", "/t/doc/c/index.html", 0, true⟩)],
     [("p:c", ⟨"c", "p", "/t/doc/c/index.html", 0, true⟩)]⟩
    rfl

/-! ### Limit-zero truthiness -/

theorem searchLoop_limit_zero (q cn : String) :
    ∀ (files : List DocFile) (acc : List SearchResult),
      searchLoop q cn (some 0) files acc = searchLoop q cn none files acc := by
  intro files
  induction files with
  | nil => intro acc; rfl
  | cons f fs ih =>
    intro acc
    have h1 : limitActive (some 0) acc.length = false := rfl
    have h2 : limitActive none acc.length = false := rfl
    simp only [searchLoop, h1, h2, Bool.false_eq_true, if_false]
    exact ih _

/-- C10: a search limit of 0 is falsy, so the limit check is disabled and
search behaves exactly as if no limit had been supplied, returning all
matches across the whole tree rather than zero results. -/
theorem searchDoc_limit_zero (env : CheckEnv) (s : DocCache)
    (tree : List FsEntry) (pp cn q : String) (now : Nat) :
    searchDocM env s tree pp cn q (some 0) now =
      searchDocM env s tree pp cn q none now := by
  have hsc : ∀ files, searchCore q cn (some 0) files = searchCore q cn none files := by
    intro files
    unfold searchCore
    rw [searchLoop_limit_zero]
  unfold searchDocM
  simp only [hsc]

end CargoDocMcp
